import Mathlib

/-!
Verification of `PyTorch_DQN_Demo.py` (GuanyaShi/DQN_Atari).

We shallowly embed the pure control logic of the script: the
`ReplayMemory` ring buffer (`push`, `sample`, `__len__`), the
epsilon-greedy threshold of `select_action`, the action-index
arithmetic of the training loop, the target-network update schedule,
the checkpoint file naming, the `optimize_model` early return and the
`plot_durations` saving condition.  External libraries (`random`,
`torch`) are modelled at the level of their documented interfaces:
random draws become explicit parameters, tensor computations are
abstracted as opaque parameters of the state-transition functions.
-/

namespace DQNAtari

/-- Record corresponding to `namedtuple('Transition', ...)` (line 65):
state, action, next state (possibly `None`) and reward.  The claims do
not depend on the field contents, so the buffer below is polymorphic
in the transition type; this structure instantiates it. -/
structure Transition (σ ρ : Type) where
  state : σ
  action : Nat
  next_state : Option σ
  reward : ρ

/-- State of `class ReplayMemory` (lines 67-85): a capacity, a Python
list (which may hold `None` right after the `append(None)` in `push`),
and the ring position. -/
structure ReplayMemory (α : Type) where
  capacity : Nat
  memory : List (Option α)
  position : Nat

/-- Constructor `ReplayMemory.__init__(capacity)` (lines 69-72):
empty list, position 0. -/
def mkReplayMemory (α : Type) (capacity : Nat) : ReplayMemory α :=
  { capacity := capacity, memory := [], position := 0 }

/-- Method `ReplayMemory.push` (lines 74-79): if the list is shorter
than the capacity, append `None`; write the transition at index
`position`; advance `position` by one modulo the capacity. -/
def ReplayMemory.push (m : ReplayMemory α) (t : α) : ReplayMemory α :=
  { capacity := m.capacity
    memory :=
      (if m.memory.length < m.capacity then m.memory ++ [none] else m.memory).set
        m.position (some t)
    position := (m.position + 1) % m.capacity }

/-- Method `ReplayMemory.__len__` (lines 84-85): the length of the list. -/
def ReplayMemory.len (m : ReplayMemory α) : Nat :=
  m.memory.length

/-- A sequence of `push` calls, oldest first. -/
def ReplayMemory.pushAll (m : ReplayMemory α) (ts : List α) : ReplayMemory α :=
  ts.foldl ReplayMemory.push m

/-- Index of the push that last wrote slot `j`, after `n` pushes into a
buffer of capacity `c` (meaningful for `j < min n c`). -/
def lastWrite (n c j : Nat) : Nat := n - 1 - ((n - 1 - j) % c)

/-- Index lists that `random.sample(self.memory, batch_size)` may
choose: the canonical (increasing) representatives of the
`batch_size`-element subsets of the buffer's index range.
`random.sample` draws such a subset uniformly at random; the draw
itself is abstracted as a parameter. -/
def sampleSelections (n batch_size : Nat) : List (List Nat) :=
  (List.range n).sublistsLen batch_size

/-- Buffer entries returned for one chosen index list. -/
def sampleAt (m : ReplayMemory α) (sel : List Nat) : List (Option α) :=
  sel.map fun i => m.memory.getD i none

/-- Method `ReplayMemory.sample` (lines 81-82) delegates to
`random.sample`, which raises `ValueError` when the requested size
exceeds the population and otherwise returns `batch_size` elements
chosen at pairwise-distinct positions, modelled by the chosen index
list `sel`. -/
def ReplayMemory.sample (m : ReplayMemory α) (batch_size : Nat) (sel : List Nat) :
    Except String (List (Option α)) :=
  if batch_size ≤ m.memory.length then Except.ok (sampleAt m sel)
  else Except.error ("Sample larger than population or is negative")

/-- Hyperparameter `BATCH_SIZE` (line 134). -/
def BATCH_SIZE : Nat := 256

/-- Hyperparameter `EPS_START` (line 136). -/
noncomputable def EPS_START : ℝ := 0.95

/-- Hyperparameter `EPS_END` (line 137). -/
noncomputable def EPS_END : ℝ := 0.05

/-- Hyperparameter `EPS_DECAY` (line 138). -/
noncomputable def EPS_DECAY : ℝ := 200000

/-- Hyperparameter `TARGET_UPDATE` (line 139). -/
def TARGET_UPDATE : Nat := 200

/-- Exploration threshold computed by `select_action` (lines 154-155):
`EPS_END + (EPS_START - EPS_END) * exp(-1. * steps_done / EPS_DECAY)`. -/
noncomputable def eps_threshold (steps_done : ℕ) : ℝ :=
  EPS_END + (EPS_START - EPS_END) * Real.exp (-1 * steps_done / EPS_DECAY)

/-- Output width of the network head `nn.Linear(144, 2)` (line 102). -/
def headOutFeatures : Nat := 2

/-- Index returned by `policy_net(state).max(1)[1]` (line 159) on the
two head outputs `q0, q1`: the index of the first maximal entry. -/
def argmaxTwo (q0 q1 : ℚ) : Nat := if q0 < q1 then 1 else 0

/-- Branching of `select_action` (lines 151-161): when the drawn
`sample` exceeds the threshold take the greedy argmax over the two
head outputs, otherwise return `random.randrange(2)` (modelled as
`r % 2` for an arbitrary natural draw `r`). -/
def select_action (sample eps : ℚ) (q0 q1 : ℚ) (r : Nat) : Nat :=
  if eps < sample then argmaxTwo q0 q1 else r % 2

/-- Value `Action` actually sent to `env.step` by the training loop
(lines 244-248): the selected action plus 2. -/
def executedAction (sample eps : ℚ) (q0 q1 : ℚ) (r : Nat) : Nat :=
  select_action sample eps q0 q1 r + 2

/-- Policy and target parameter sets (`policy_net`, `target_net`). -/
structure Nets (π : Type) where
  policy : π
  target : π

/-- End-of-episode target-network update (lines 286-287): copy the
policy parameters into the target network exactly when
`i_episode % TARGET_UPDATE == 0`. -/
def targetUpdateStep (i_episode : Nat) (s : Nets π) : Nets π :=
  if i_episode % TARGET_UPDATE = 0 then { policy := s.policy, target := s.policy } else s

/-- Checkpoint dump (lines 289-291): every 1000 episodes save both
state dicts under names embedding the episode index, otherwise save
nothing. -/
def checkpointFiles (i_episode : Nat) (policyParams targetParams : π) : List (String × π) :=
  if i_episode % 1000 = 0 then
    [("policy_net_" ++ toString i_episode ++ ".pth", policyParams),
     ("target_net_" ++ toString i_episode ++ ".pth", targetParams)]
  else []

/-- Global mutable state read or written by `optimize_model`. -/
structure TrainState (α π ω : Type) where
  memory : ReplayMemory α
  policyNet : π
  targetNet : π
  optimState : ω

/-- Function `optimize_model` (lines 191-226): return with the state
unchanged when the buffer holds fewer than `BATCH_SIZE` transitions;
otherwise sample and perform the gradient step, abstracted as
`gradStep` since it lives entirely in the tensor library. -/
def optimize_model (gradStep : TrainState α π ω → TrainState α π ω)
    (s : TrainState α π ω) : TrainState α π ω :=
  if s.memory.len < BATCH_SIZE then s else gradStep s

/-- File written by the tail of `plot_durations` (lines 184-185): save
`Duration_<n>.png` when the number `n` of recorded durations is a
multiple of 10, and nothing otherwise. -/
def plotSavedFile (episode_durations : List Nat) : Option String :=
  if episode_durations.length % 10 = 0 then
    some ("Duration_" ++ toString episode_durations.length ++ ".png")
  else none

/-- End-of-episode recording (lines 281-283): append `t + 1` to
`episode_durations`, then call `plot_durations`; the pair returns the
new duration list and the file saved, if any. -/
def recordDuration (episode_durations : List Nat) (t : Nat) : List Nat × Option String :=
  (episode_durations ++ [t + 1], plotSavedFile (episode_durations ++ [t + 1]))

/-- Gradient step used as a concrete instantiation in examples: bump
the policy parameters. -/
def bumpStep (s : TrainState Nat Nat Nat) : TrainState Nat Nat Nat :=
  { s with policyNet := s.policyNet + 1 }

/-- Concrete training state with an empty replay buffer. -/
def demoState : TrainState Nat Nat Nat :=
  { memory := mkReplayMemory Nat 100000, policyNet := 0, targetNet := 0, optimState := 0 }

/-! Basic algebraic facts about the embedded operations. -/

theorem push_memory (m : ReplayMemory α) (t : α) :
    (m.push t).memory =
      (if m.memory.length < m.capacity then m.memory ++ [none] else m.memory).set
        m.position (some t) := rfl

theorem push_position (m : ReplayMemory α) (t : α) :
    (m.push t).position = (m.position + 1) % m.capacity := rfl

theorem push_capacity (m : ReplayMemory α) (t : α) :
    (m.push t).capacity = m.capacity := rfl

theorem pushAll_nil (m : ReplayMemory α) : m.pushAll [] = m := rfl

theorem pushAll_cons (m : ReplayMemory α) (t : α) (ts : List α) :
    m.pushAll (t :: ts) = (m.push t).pushAll ts := rfl

theorem pushAll_append (m : ReplayMemory α) (ts us : List α) :
    m.pushAll (ts ++ us) = (m.pushAll ts).pushAll us :=
  List.foldl_append _ _ _ _

theorem pushAll_capacity (m : ReplayMemory α) (ts : List α) :
    (m.pushAll ts).capacity = m.capacity := by
  induction ts generalizing m with
  | nil => rfl
  | cons t ts ih => rw [pushAll_cons, ih, push_capacity]

/-- Length behaviour of one `push`: grow by one below capacity, stay
put at capacity. -/
theorem push_len (m : ReplayMemory α) (t : α) :
    (m.push t).len = if m.len < m.capacity then m.len + 1 else m.len := by
  unfold ReplayMemory.push ReplayMemory.len
  by_cases h : m.memory.length < m.capacity <;>
    simp [h, List.length_set]

/-- The length bound is preserved by a single push. -/
theorem push_len_le (m : ReplayMemory α) (t : α) (h : m.len ≤ m.capacity) :
    (m.push t).len ≤ m.capacity := by
  rw [push_len]
  by_cases hlt : m.len < m.capacity <;> simp [hlt] <;> omega

/-- The length bound is preserved by any sequence of pushes. -/
theorem pushAll_len_le (m : ReplayMemory α) (ts : List α) (h : m.len ≤ m.capacity) :
    (m.pushAll ts).len ≤ (m.pushAll ts).capacity := by
  rw [pushAll_capacity]
  induction ts generalizing m with
  | nil => exact h
  | cons t ts ih =>
      rw [pushAll_cons]
      have := push_len_le m t h
      rw [← push_capacity m t]
      exact pushAll_capacity (m.push t) ts ▸ ih (m.push t) (by rwa [push_capacity])

/-! Modular arithmetic toolbox for the ring-buffer characterisation. -/

theorem pred_mod (a c r : Nat) (h : a % c = r) (hr : 1 ≤ r) : (a - 1) % c = r - 1 := by
  rcases Nat.eq_zero_or_pos c with hc | hc
  · subst hc
    simp only [Nat.mod_zero] at h ⊢
    omega
  · have hrc : r < c := by rw [← h]; exact Nat.mod_lt a hc
    have heq : a = c * (a / c) + r := by rw [← h]; exact (Nat.div_add_mod a c).symm
    have ha : a - 1 = c * (a / c) + (r - 1) := by omega
    rw [ha, Nat.mul_add_mod, Nat.mod_eq_of_lt (by omega)]

theorem succ_mod_eq (n c : Nat) : (n % c + 1) % c = (n + 1) % c := by
  rw [Nat.add_mod (n % c) 1 c, Nat.add_mod n 1 c, Nat.mod_mod_of_dvd n (dvd_refl c)]

theorem sub_mod_self (n c : Nat) : (n - n % c) % c = 0 := by
  have hd : c * (n / c) + n % c = n := Nat.div_add_mod n c
  have heq : n - n % c = c * (n / c) := by omega
  rw [heq, Nat.mul_mod_right]

theorem lastWrite_small (n c j : Nat) (hjn : j < n) (hnc : n ≤ c) : lastWrite n c j = j := by
  simp only [lastWrite]
  rw [Nat.mod_eq_of_lt (by omega)]
  omega

theorem lastWrite_newest (n c : Nat) : lastWrite (n + 1) c (n % c) = n := by
  simp only [lastWrite, Nat.add_sub_cancel]
  rw [sub_mod_self]
  omega

theorem lastWrite_lt (n c j : Nat) (hn : 0 < n) : lastWrite n c j < n := by
  simp only [lastWrite]
  omega

theorem lastWrite_ge (n c j : Nat) (hc : 0 < c) : n - c ≤ lastWrite n c j := by
  have := Nat.mod_lt (n - 1 - j) hc
  simp only [lastWrite]
  omega

theorem lastWrite_stable (n c j : Nat) (hc : 0 < c) (hcn : c ≤ n) (hjc : j < c)
    (hne : j ≠ n % c) : lastWrite (n + 1) c j = lastWrite n c j := by
  have hjn : j < n := Nat.lt_of_lt_of_le hjc hcn
  have hrlt : (n - j) % c < c := Nat.mod_lt _ hc
  have hrle : (n - j) % c ≤ n - j := Nat.mod_le _ _
  have hr1 : 1 ≤ (n - j) % c := by
    by_contra h0'
    have h0 : (n - j) % c = 0 := by omega
    apply hne
    have hn' : n % c = j := by
      conv_lhs => rw [show n = (n - j) + j by omega]
      rw [Nat.add_mod, h0, Nat.zero_add, Nat.mod_mod_of_dvd j (dvd_refl c),
        Nat.mod_eq_of_lt hjc]
    omega
  have hpred : (n - 1 - j) % c = (n - j) % c - 1 := by
    rw [show n - 1 - j = n - j - 1 by omega]
    exact pred_mod (n - j) c ((n - j) % c) rfl hr1
  simp only [lastWrite, Nat.add_sub_cancel]
  rw [hpred]
  omega

theorem lastWrite_oldest (n c : Nat) (hc : 0 < c) (hcn : c ≤ n) :
    lastWrite n c (n % c) = n - c := by
  have hd : c * (n / c) + n % c = n := Nat.div_add_mod n c
  have hrlt : n % c < c := Nat.mod_lt n hc
  have hq : 1 ≤ n / c := (Nat.one_le_div_iff hc).2 hcn
  have hcq : c * (n / c) = c * (n / c - 1) + c := by
    conv_lhs => rw [show n / c = (n / c - 1) + 1 by omega]
    rw [Nat.mul_add, Nat.mul_one]
  have h1 : n - 1 - n % c = c * (n / c - 1) + (c - 1) := by omega
  simp only [lastWrite]
  rw [h1, Nat.mul_add_mod, Nat.mod_eq_of_lt (by omega)]
  omega

/-- Full characterisation of a buffer built by `ts` pushes from
creation: the list length is `min |ts| c`, the position is `|ts| % c`,
and slot `j` holds the transition of the latest push whose index is
congruent to `j` modulo `c`. -/
theorem pushAll_char (c : Nat) (hc : 0 < c) (ts : List α) :
    ((mkReplayMemory α c).pushAll ts).memory.length = min ts.length c ∧
    ((mkReplayMemory α c).pushAll ts).position = ts.length % c ∧
    ∀ j, j < min ts.length c →
      ((mkReplayMemory α c).pushAll ts).memory[j]? =
        (ts[lastWrite ts.length c j]?).map some := by
  induction ts using List.reverseRecOn with
  | nil =>
      refine ⟨by simp [pushAll_nil, mkReplayMemory], (Nat.zero_mod c).symm, ?_⟩
      intro j hj
      simp at hj
  | append_singleton us u ih =>
      obtain ⟨ihlen, ihpos, ihelt⟩ := ih
      have hsplit : (mkReplayMemory α c).pushAll (us ++ [u]) =
          ((mkReplayMemory α c).pushAll us).push u := by
        rw [pushAll_append, pushAll_cons, pushAll_nil]
      have hcap : ((mkReplayMemory α c).pushAll us).capacity = c := pushAll_capacity _ us
      rw [hsplit]
      set m := (mkReplayMemory α c).pushAll us with hm
      have hlen' : (us ++ [u]).length = us.length + 1 := by simp
      by_cases hnc : us.length < c
      · -- below capacity: append, then write at the end
        have hmin : min us.length c = us.length := Nat.min_eq_left (Nat.le_of_lt hnc)
        have hlen : m.memory.length = us.length := by rw [ihlen, hmin]
        have hpos : m.position = us.length := by rw [ihpos, Nat.mod_eq_of_lt hnc]
        have hifc : (if m.memory.length < m.capacity then m.memory ++ [none] else m.memory) =
            m.memory ++ [none] := by rw [hlen, hcap, if_pos hnc]
        refine ⟨?_, ?_, ?_⟩
        · rw [push_memory, hifc, hlen']
          simp only [List.length_set, List.length_append, List.length_cons, List.length_nil,
            hlen]
          omega
        · rw [push_position, hcap, hpos, hlen']
        · rw [hlen']
          intro j hj
          have hj1 : j < us.length + 1 := by
            have := Nat.min_le_left (us.length + 1) c
            omega
          rw [push_memory, hifc, hpos]
          by_cases hje : j = us.length
          · subst hje
            rw [List.getElem?_set_self (h := by simp [hlen]),
              lastWrite_small (us.length + 1) c us.length (by omega) (by omega),
              List.getElem?_concat_length]
            rfl
          · have hjlt : j < us.length := by omega
            rw [List.getElem?_set_ne (show us.length ≠ j by omega),
              List.getElem?_append_left (show j < m.memory.length by omega),
              ihelt j (show j < min us.length c by rw [hmin]; exact hjlt),
              lastWrite_small us.length c j (by omega) (by omega),
              lastWrite_small (us.length + 1) c j (by omega) (by omega),
              List.getElem?_append_left hjlt]
      · -- at capacity: overwrite slot `us.length % c`
        have hcn : c ≤ us.length := Nat.le_of_not_lt hnc
        have hmin : min us.length c = c := Nat.min_eq_right hcn
        have hlen : m.memory.length = c := by rw [ihlen, hmin]
        have hifc : (if m.memory.length < m.capacity then m.memory ++ [none] else m.memory) =
            m.memory := by rw [hlen, hcap, if_neg (lt_irrefl c)]
        refine ⟨?_, ?_, ?_⟩
        · rw [push_memory, hifc, hlen']
          simp only [List.length_set, hlen]
          omega
        · rw [push_position, hcap, ihpos, hlen']
          exact succ_mod_eq us.length c
        · rw [hlen']
          intro j hj
          have hjc : j < c := by
            have := Nat.min_le_right (us.length + 1) c
            omega
          rw [push_memory, hifc, ihpos]
          by_cases hje : j = us.length % c
          · subst hje
            rw [List.getElem?_set_self (h := by rw [hlen]; exact Nat.mod_lt _ hc),
              lastWrite_newest us.length c, List.getElem?_concat_length]
            rfl
          · rw [List.getElem?_set_ne (show us.length % c ≠ j by omega),
              ihelt j (show j < min us.length c by rw [hmin]; exact hjc),
              lastWrite_stable us.length c j hc hcn hjc hje,
              List.getElem?_append_left (lastWrite_lt us.length c j (by omega))]

/-- C1: for a `ReplayMemory` of capacity `c > 0`, the reported length
never exceeds `c` under any sequence of pushes from creation; below
capacity each push adds exactly one slot, and at capacity a push
leaves the length unchanged. -/
theorem C1_len_bounded (c : Nat) (hc : 0 < c) (ts : List Nat) (m : ReplayMemory Nat)
    (t : Nat) :
    ((mkReplayMemory Nat c).pushAll ts).len ≤ c ∧
    (m.len < m.capacity → (m.push t).len = m.len + 1) ∧
    (m.len = m.capacity → (m.push t).len = m.len) := by
  refine ⟨?_, ?_, ?_⟩
  · have h0 : (mkReplayMemory Nat c).len ≤ (mkReplayMemory Nat c).capacity := by
      simp [mkReplayMemory, ReplayMemory.len]
    have := pushAll_len_le (mkReplayMemory Nat c) ts h0
    rwa [pushAll_capacity] at this
  · intro h
    rw [push_len]
    simp [h]
  · intro h
    rw [push_len]
    simp [h]

/-- Witness for C1 at capacity 2 and three pushes. -/
theorem C1_len_bounded_witness :
    ((mkReplayMemory Nat 2).pushAll [10, 11, 12]).len ≤ 2 :=
  (C1_len_bounded 2 (by decide) [10, 11, 12] (mkReplayMemory Nat 2) 0).1

/-- C2: once full, a push overwrites the slot at index `position` and
advances `position` to `(position + 1) % c`; in a buffer filled by the
pushes `ts` from creation (`c ≤ |ts|`), the slot at the current
`position` — the one the next push evicts — holds the transition
pushed at step `|ts| - c`, the oldest still stored, since every stored
slot holds a transition pushed at a step `≥ |ts| - c`. -/
theorem C2_modular_eviction (c : Nat) (hc : 0 < c) (m : ReplayMemory Nat) (t : Nat)
    (ts : List Nat) (hfull : m.len = m.capacity) (hts : c ≤ ts.length) :
    ((m.push t).memory = m.memory.set m.position (some t) ∧
     (m.push t).position = (m.position + 1) % m.capacity) ∧
    (((mkReplayMemory Nat c).pushAll ts).memory[((mkReplayMemory Nat c).pushAll ts).position]? =
       (ts[ts.length - c]?).map some ∧
     ∀ j, j < c → ∃ k, ts.length - c ≤ k ∧ k < ts.length ∧
       ((mkReplayMemory Nat c).pushAll ts).memory[j]? = (ts[k]?).map some) := by
  obtain ⟨hlen, hpos, helt⟩ := pushAll_char c hc ts
  have hminr : min ts.length c = c := Nat.min_eq_right hts
  refine ⟨⟨?_, ?_⟩, ?_, ?_⟩
  · have hfull' : m.memory.length = m.capacity := hfull
    rw [push_memory, if_neg (by omega)]
  · exact push_position m t
  · rw [hpos, helt (ts.length % c) (by rw [hminr]; exact Nat.mod_lt _ hc),
      lastWrite_oldest ts.length c hc hts]
  · intro j hjc
    exact ⟨lastWrite ts.length c j, lastWrite_ge ts.length c j hc,
      lastWrite_lt ts.length c j (by omega), helt j (by rw [hminr]; exact hjc)⟩

/-- Witness for C2: capacity 2, pushes `[1, 2, 3]`; the slot about to
be evicted holds the second-oldest push `2` (push `1` was already
evicted), which entered at step `|ts| - c = 1`. -/
theorem C2_modular_eviction_witness :
    ((mkReplayMemory Nat 2).pushAll [1, 2, 3]).memory[((mkReplayMemory Nat 2).pushAll
      [1, 2, 3]).position]? = (([1, 2, 3] : List Nat)[1]?).map some :=
  (C2_modular_eviction 2 (by decide) ((mkReplayMemory Nat 2).pushAll [1, 2])
    9 [1, 2, 3] (by decide) (by decide)).2.1

/-- C3: for `batch_size ≤ len(memory)` every possible draw of
`sample` succeeds and returns exactly `batch_size` entries taken at
pairwise-distinct in-range buffer slots, each a stored element; the
selections range over exactly the `batch_size`-element subsets of the
index range, each appearing once in the duplicate-free selection list
of length `choose (len, batch_size)`, so `random.sample`'s uniform
draw over it weights every subset equally. -/
theorem C3_sample_uniform_subsets (m : ReplayMemory Nat) (k : Nat)
    (hk : k ≤ m.memory.length) :
    (∀ sel ∈ sampleSelections m.memory.length k,
        m.sample k sel = Except.ok (sampleAt m sel) ∧
        (sampleAt m sel).length = k ∧
        sel.Nodup ∧
        (∀ i ∈ sel, i < m.memory.length) ∧
        ∀ x ∈ sampleAt m sel, x ∈ m.memory) ∧
    (sampleSelections m.memory.length k).length = m.memory.length.choose k ∧
    (sampleSelections m.memory.length k).Nodup ∧
    ∀ sel : List Nat,
      sel ∈ sampleSelections m.memory.length k ↔
        sel.Sublist (List.range m.memory.length) ∧ sel.length = k := by
  refine ⟨?_, ?_, List.nodup_sublistsLen k (List.nodup_range _),
    fun sel => List.mem_sublistsLen⟩
  · intro sel hsel
    obtain ⟨hsub, hlen⟩ := List.mem_sublistsLen.mp hsel
    have hmem : ∀ i ∈ sel, i < m.memory.length := by
      intro i hi
      exact List.mem_range.mp (hsub.subset hi)
    refine ⟨?_, ?_, List.Nodup.sublist hsub (List.nodup_range _), hmem, ?_⟩
    · unfold ReplayMemory.sample
      rw [if_pos hk]
    · simp [sampleAt, hlen]
    · intro x hx
      obtain ⟨i, hi, hxi⟩ := List.mem_map.mp hx
      have hilt : i < m.memory.length := hmem i hi
      rw [← hxi, List.getD_eq_getElem m.memory none hilt]
      exact List.getElem_mem hilt
  · rw [sampleSelections, List.length_sublistsLen, List.length_range]

/-- Witness for C3 on a three-element buffer with batch size 2: there
are `choose 3 2` equally weighted index subsets. -/
theorem C3_sample_uniform_subsets_witness :
    (sampleSelections ((mkReplayMemory Nat 3).pushAll [7, 8, 9]).memory.length 2).length =
      (((mkReplayMemory Nat 3).pushAll [7, 8, 9]).memory.length).choose 2 :=
  (C3_sample_uniform_subsets ((mkReplayMemory Nat 3).pushAll [7, 8, 9]) 2 (by decide)).2.1

/-- C4: sampling with a batch size larger than the buffer length
raises (returns the `ValueError` message, not a batch), and with a
batch size at most the length it returns a batch without raising. -/
theorem C4_sample_error (m : ReplayMemory Nat) (k : Nat) (sel : List Nat) :
    (m.len < k →
      m.sample k sel = Except.error ("Sample larger than population or is negative")) ∧
    (k ≤ m.len → m.sample k sel = Except.ok (sampleAt m sel)) := by
  have hlen : m.len = m.memory.length := rfl
  unfold ReplayMemory.sample
  constructor
  · intro h
    rw [if_neg (by omega)]
  · intro h
    rw [if_pos (by omega)]

/-- Witness for C4: asking 4 samples from a 3-element buffer errors. -/
theorem C4_sample_error_witness :
    ((mkReplayMemory Nat 3).pushAll [7, 8, 9]).sample 4 [] =
      Except.error ("Sample larger than population or is negative") :=
  (C4_sample_error ((mkReplayMemory Nat 3).pushAll [7, 8, 9]) 4 []).1 (by decide)

/-- C5: the exploration threshold equals
`EPS_END + (EPS_START - EPS_END) * exp(-steps_done / EPS_DECAY)`, is
strictly decreasing in the step count, and lies in the half-open
interval `(EPS_END, EPS_START]` for every step count. -/
theorem C5_eps_threshold_decay :
    (∀ n : ℕ, eps_threshold n =
        EPS_END + (EPS_START - EPS_END) * Real.exp (-(n : ℝ) / EPS_DECAY)) ∧
    (∀ n1 n2 : ℕ, n1 < n2 → eps_threshold n2 < eps_threshold n1) ∧
    (∀ n : ℕ, EPS_END < eps_threshold n ∧ eps_threshold n ≤ EPS_START) := by
  have hD : (0 : ℝ) < EPS_DECAY := by norm_num [EPS_DECAY]
  have hSE : (0 : ℝ) < EPS_START - EPS_END := by norm_num [EPS_START, EPS_END]
  refine ⟨?_, ?_, ?_⟩
  · intro n
    unfold eps_threshold
    rw [neg_one_mul]
  · intro n1 n2 h
    unfold eps_threshold
    have hn : (n1 : ℝ) < (n2 : ℝ) := by exact_mod_cast h
    have hinv : (0 : ℝ) < EPS_DECAY⁻¹ := inv_pos.mpr hD
    have hexp : Real.exp (-1 * n2 / EPS_DECAY) < Real.exp (-1 * n1 / EPS_DECAY) := by
      apply Real.exp_lt_exp.mpr
      rw [div_eq_mul_inv, div_eq_mul_inv]
      nlinarith
    linarith [mul_lt_mul_of_pos_left hexp hSE]
  · intro n
    unfold eps_threshold
    have hxpos : 0 < Real.exp (-1 * n / EPS_DECAY) := Real.exp_pos _
    have hxle : Real.exp (-1 * n / EPS_DECAY) ≤ 1 := by
      apply Real.exp_le_one_iff.mpr
      have h0 : (0 : ℝ) ≤ (n : ℝ) / EPS_DECAY := div_nonneg (Nat.cast_nonneg n) hD.le
      rw [neg_one_mul, neg_div]
      linarith
    constructor
    · linarith [mul_pos hSE hxpos]
    · linarith [mul_le_of_le_one_right hSE.le hxle]

/-- Witness for C5: the threshold strictly drops from step 0 to step 1. -/
theorem C5_eps_threshold_decay_witness :
    (0 : ℕ) < 1 ∧ eps_threshold 1 < eps_threshold 0 :=
  ⟨Nat.zero_lt_one, C5_eps_threshold_decay.2.1 0 1 Nat.zero_lt_one⟩

/-- C6: at the end of episode `i` the target network is set equal to
the policy network exactly when `i % TARGET_UPDATE == 0` (with
`TARGET_UPDATE = 200`), the policy network being untouched; for all
other episode indices the end-of-episode step changes nothing. -/
theorem C6_target_sync (i : Nat) (s : Nets Nat) :
    (i % TARGET_UPDATE = 0 →
      (targetUpdateStep i s).target = s.policy ∧
      (targetUpdateStep i s).policy = s.policy) ∧
    (i % TARGET_UPDATE ≠ 0 → targetUpdateStep i s = s) ∧
    TARGET_UPDATE = 200 := by
  unfold targetUpdateStep
  refine ⟨?_, ?_, rfl⟩
  · intro h
    rw [if_pos h]
    exact ⟨rfl, rfl⟩
  · intro h
    rw [if_neg h]

/-- Witness for C6: episode 400 syncs, episode 401 changes nothing. -/
theorem C6_target_sync_witness :
    ((targetUpdateStep 400 ⟨5, 7⟩).target = 5 ∧ (targetUpdateStep 400 ⟨5, 7⟩).policy = 5) ∧
    targetUpdateStep 401 (⟨5, 7⟩ : Nets Nat) = ⟨5, 7⟩ :=
  ⟨(C6_target_sync 400 ⟨5, 7⟩).1 (by decide), (C6_target_sync 401 ⟨5, 7⟩).2.1 (by decide)⟩

/-- C7: checkpoint files are written exactly when
`i_episode % 1000 == 0`, and then they are precisely the two weight
dumps `policy_net_<i>.pth` and `target_net_<i>.pth` with the episode
index embedded in each name. -/
theorem C7_checkpoint_schedule (i : Nat) (p t : Nat) :
    (i % 1000 = 0 → checkpointFiles i p t =
      [("policy_net_" ++ toString i ++ ".pth", p),
       ("target_net_" ++ toString i ++ ".pth", t)]) ∧
    (i % 1000 ≠ 0 → checkpointFiles i p t = []) ∧
    (checkpointFiles i p t ≠ [] ↔ i % 1000 = 0) := by
  unfold checkpointFiles
  by_cases h : i % 1000 = 0
  · rw [if_pos h]
    refine ⟨fun _ => rfl, fun hn => absurd h hn, ?_⟩
    simp [h]
  · rw [if_neg h]
    refine ⟨fun hy => absurd hy h, fun _ => rfl, ?_⟩
    simp [h]

/-- Witness for C7: episode 2000 writes the two dumps. -/
theorem C7_checkpoint_schedule_witness :
    checkpointFiles 2000 (1 : Nat) 2 =
      [("policy_net_" ++ toString 2000 ++ ".pth", 1),
       ("target_net_" ++ toString 2000 ++ ".pth", 2)] :=
  (C7_checkpoint_schedule 2000 1 2).1 (by decide)

/-- C8: `select_action` always yields an index below the head's 2
outputs, i.e. in `{0, 1}`, on both the random branch (`randrange(2)`)
and the greedy branch (argmax of 2 values); hence the executed
environment action, obtained by adding 2, is always 2 or 3 and never
0 or 1. -/
theorem C8_action_range (sample eps q0 q1 : ℚ) (r : Nat) :
    select_action sample eps q0 q1 r < headOutFeatures ∧
    (executedAction sample eps q0 q1 r = 2 ∨ executedAction sample eps q0 q1 r = 3) ∧
    executedAction sample eps q0 q1 r ≠ 0 ∧ executedAction sample eps q0 q1 r ≠ 1 := by
  have h2 : r % 2 < 2 := Nat.mod_lt r (by decide)
  unfold executedAction select_action argmaxTwo headOutFeatures
  by_cases h : eps < sample <;> by_cases h' : q0 < q1 <;> simp [h, h'] <;> omega

/-- C9: when the buffer holds fewer than `BATCH_SIZE` transitions,
`optimize_model` returns at once with the replay buffer, both
networks' parameters and the optimizer state all unchanged. -/
theorem C9_optimize_model_noop (gradStep : TrainState Nat Nat Nat → TrainState Nat Nat Nat)
    (s : TrainState Nat Nat Nat) (h : s.memory.len < BATCH_SIZE) :
    optimize_model gradStep s = s ∧
    (optimize_model gradStep s).memory = s.memory ∧
    (optimize_model gradStep s).policyNet = s.policyNet ∧
    (optimize_model gradStep s).targetNet = s.targetNet ∧
    (optimize_model gradStep s).optimState = s.optimState := by
  unfold optimize_model
  rw [if_pos h]
  exact ⟨rfl, rfl, rfl, rfl, rfl⟩

/-- Witness for C9: an empty buffer leaves the state untouched even
under a parameter-bumping gradient step. -/
theorem C9_optimize_model_noop_witness :
    optimize_model bumpStep demoState = demoState :=
  (C9_optimize_model_noop bumpStep demoState (by decide)).1

/-- C10: after appending an episode duration, a plot file is saved
precisely when the new number `n` of recorded durations is a multiple
of 10, and the saved file is `Duration_<n>.png`. -/
theorem C10_plot_every_ten (ds : List Nat) (t : Nat) :
    ((recordDuration ds t).2 ≠ none ↔ (ds.length + 1) % 10 = 0) ∧
    ((ds.length + 1) % 10 = 0 →
      (recordDuration ds t).2 = some ("Duration_" ++ toString (ds.length + 1) ++ ".png")) ∧
    (recordDuration ds t).1 = ds ++ [t + 1] := by
  unfold recordDuration plotSavedFile
  have hlen : (ds ++ [t + 1]).length = ds.length + 1 := by simp
  rw [hlen]
  by_cases h : (ds.length + 1) % 10 = 0
  · simp [h]
  · simp [h]

/-- Witness for C10: the tenth recorded duration saves
`Duration_10.png`. -/
theorem C10_plot_every_ten_witness :
    (recordDuration [3, 3, 3, 3, 3, 3, 3, 3, 3] 4).2 =
      some ("Duration_" ++ toString ((3 :: [3, 3, 3, 3, 3, 3, 3, 3]).length + 1) ++ ".png") :=
  (C10_plot_every_ten [3, 3, 3, 3, 3, 3, 3, 3, 3] 4).2.1 (by decide)

end DQNAtari
